import Mathlib

/-!
Verification of the kalker evaluation core: a shallow embedding of
`src/parser.rs` (recursive-descent parser) and
`kalk/src/kalk_value/rounding.rs` (numeric canonicalization), together with
theorems settling the specification claims.

External collaborators (lexer, interpreter, symbol table, the numeric
backend `KalkValue`/float type and the `CONSTANTS` table) are not part of
the two source files; where the embedding needs them they are modelled from
the spec and marked as such in their doc comments.
-/

namespace KalkVerify

/-- Modelled from the spec: the opaque `Magnitude` backend value (rug `Float`
or `f64`, selected at build time; external to the core). It is modelled as an
exact fraction `num / den` (callers keep `den` positive); the operations below
are exactly the capability set the spec lists (compare, absolute value,
fractional part, truncation, ceiling, multiply, subtract, base-10 logarithm
comparison, fixed-precision decimal rendering). No gcd-normalization is
performed, so every operation computes by plain integer arithmetic. -/
structure Mag where
  num : Int
  den : Nat
  deriving DecidableEq, Repr

/-- The backend test `value == 0.0`. -/
def Mag.isZero (q : Mag) : Bool := q.num == 0

/-- The backend comparison `a < b` (denominators are positive). -/
def Mag.lt (a b : Mag) : Bool := a.num * (b.den : Int) < b.num * (a.den : Int)

/-- The backend `abs`. -/
def Mag.abs (q : Mag) : Mag := ⟨(q.num.natAbs : Int), q.den⟩

/-- The backend `trunc`: round toward zero to an integer value. -/
def Mag.trunc (q : Mag) : Mag := ⟨q.num.tdiv (q.den : Int), 1⟩

/-- The backend `fract`: `q - q.trunc()`, keeping the sign of `q`. -/
def Mag.fract (q : Mag) : Mag := ⟨q.num.tmod (q.den : Int), q.den⟩

/-- The backend `ceil`. -/
def Mag.ceil (q : Mag) : Mag := ⟨-((-q.num).fdiv (q.den : Int)), 1⟩

/-- The backend multiplication. -/
def Mag.mul (a b : Mag) : Mag := ⟨a.num * b.num, a.den * b.den⟩

/-- The backend subtraction. -/
def Mag.sub (a b : Mag) : Mag :=
  ⟨a.num * (b.den : Int) - b.num * (a.den : Int), a.den * b.den⟩

/-- An integer-valued magnitude. -/
def Mag.ofInt (n : Int) : Mag := ⟨n, 1⟩

/-- The magnitude `1`. -/
def Mag.one : Mag := Mag.ofInt 1

/-- The threshold value `10 ^ (-n)`. -/
def pow10inv (n : Nat) : Mag := ⟨1, 10 ^ n⟩

/-- Modelled from the spec: the backend base-10 logarithm, used by `round`
only in comparisons of the shape `x.log10() < -n` with `x` a nonnegative
magnitude and `n` a positive integer threshold; this holds exactly when
`x < 10 ^ (-n)` (and `log10(0) = -infinity` is below every threshold, which
the comparison `0 < 10 ^ (-n)` reproduces). -/
def log10_lt_neg (x : Mag) (n : Nat) : Bool := Mag.lt x (pow10inv n)

/-- The numeric value model: a complex number with two magnitude components
and a unit tag (`KalkValue::Number`). -/
inductive KalkValue where
  | Number (real : Mag) (imaginary : Mag) (unit : String)
  deriving DecidableEq, Repr

/-- The component selector. -/
inductive ComplexNumberType where
  | Real
  | Imaginary
  deriving DecidableEq, Repr

/-- The real component. -/
def KalkValue.re : KalkValue → Mag
  | .Number r _ _ => r

/-- The imaginary component. -/
def KalkValue.im : KalkValue → Mag
  | .Number _ i _ => i

/-- `KalkValue::get_unit`. -/
def KalkValue.get_unit : KalkValue → String
  | .Number _ _ u => u

/-- The component selected by a `ComplexNumberType` (`values().0` / `values().1`). -/
def KalkValue.component (v : KalkValue) (cnt : ComplexNumberType) : Mag :=
  match cnt with
  | .Real => v.re
  | .Imaginary => v.im

/-- `trim_zeroes` from `rounding.rs`: if the string contains a decimal point,
strip trailing `'0'` characters and then trailing `'.'` characters. -/
def trim_zeroes (input : String) : String :=
  if input.data.contains '.' then
    ⟨((input.data.reverse.dropWhile (fun ch => ch == '0')).dropWhile
        (fun ch => ch == '.')).reverse⟩
  else input

/-- The character of a decimal digit (code point 48 + digit). -/
def decimalDigitChar (d : Nat) : Char := Char.ofNat (48 + d % 10)

/-- Decimal digits of a natural number, most significant first; fuel-based so
that it computes by kernel reduction. -/
def natDigitsAux : Nat → Nat → List Char
  | _, 0 => []
  | n, fuel + 1 =>
    if n < 10 then [decimalDigitChar n]
    else natDigitsAux (n / 10) fuel ++ [decimalDigitChar (n % 10)]

/-- Decimal digits of a natural number, most significant first. -/
def natDigits (n : Nat) : List Char := natDigitsAux n (n + 1)

/-- The first `prec` digits after the decimal point of the fraction `n / d`
(with `n < d`), by repeated multiplication by ten. -/
def fracDigits : Nat → Nat → Nat → List Char
  | _, _, 0 => []
  | n, d, prec + 1 => decimalDigitChar (n * 10 / d) :: fracDigits (n * 10 % d) d prec

/-- The untrimmed character list of a magnitude rendering: sign, full
integer part, decimal point, `prec` fractional digits (truncated). -/
def magDigitsList (q : Mag) (prec : Nat) : List Char :=
  (if q.num < 0 then ['-'] else []) ++ natDigits (q.num.natAbs / q.den) ++
    '.' :: fracDigits (q.num.natAbs % q.den) q.den prec

/-- Modelled from the spec: the backend's fixed-precision decimal string
rendering of a magnitude (`to_string` of a float, and the rendering behind
`to_string_real` / `to_string_imaginary`): sign, full integer part, `prec`
fractional digits (truncated), trailing zeroes trimmed. -/
def magToString (q : Mag) (prec : Nat) : String :=
  trim_zeroes ⟨magDigitsList q prec⟩

/-- Character count of a string (the renderings involved are ASCII, so this
is the Rust byte length `len()`). -/
def strLen (s : String) : Nat := s.data.length

/-- The Rust byte-range slice `s[a..b]` (on ASCII renderings). -/
def strSub (s : String) (a b : Nat) : String := ⟨(s.data.drop a).take (b - a)⟩

/-- The Rust `starts_with` test. -/
def strStartsWith (s p : String) : Bool := s.data.take p.data.length == p.data

/-- The Rust `trim_start_matches("-")`: strip every leading minus sign. -/
def stripMinus (s : String) : String := ⟨s.data.dropWhile (fun ch => ch == '-')⟩

/-- The sign prefix used by `estimate`: `"-"` when the value is negative. -/
def signStr (value : Mag) : String :=
  if Mag.lt value (Mag.ofInt 0) then "-" else ""

/-- The guard of the half-pattern branch of `estimate`, on the sign-stripped
rendered string: starts with `"0.5"` and either has length exactly 3 or has
length greater than 6 with the characters at offsets 3 and 4 equal to `"00"`. -/
def halfCond (s : String) : Bool :=
  strStartsWith s "0.5" &&
    (strLen s == 3 || (decide (6 < strLen s) && strSub s 3 5 == "00"))

/-- Modelled from the spec: the fixed `CONSTANTS` table (external to the core)
mapping 8-character decimal prefixes to symbolic names — representations of π
and simple multiples/divisors, e, √2, and the like. -/
def CONSTANTS : List (String × String) :=
  [("3.141592", "π"), ("6.283185", "2π"), ("9.424777", "3π"),
   ("1.570796", "π/2"), ("1.047197", "π/3"), ("0.785398", "π/4"),
   ("0.523598", "π/6"), ("0.318309", "1/π"), ("0.636619", "2/π"),
   ("2.718281", "e"), ("1.414213", "√2"), ("1.732050", "√3"),
   ("2.236067", "√5"), ("0.693147", "ln(2)"), ("2.302585", "ln(10)")]

/-- Key lookup in an association list of strings (the `CONSTANTS.get` call). -/
def lookupStr : List (String × String) → String → Option String
  | [], _ => none
  | (k, v) :: rest, key => if k == key then some v else lookupStr rest key

/-- Fuel-driven integer square root by Newton iteration (kernel-computable). -/
def isqrtAux (n : Nat) : Nat → Nat → Nat
  | x, 0 => x
  | x, fuel + 1 =>
    let y := (x + n / x) / 2
    if y < x then isqrtAux n y fuel else x

/-- Integer square root (kernel-computable). -/
def isqrt (n : Nat) : Nat := if n ≤ 1 then n else isqrtAux n n (n + 1)

/-- Modelled from the spec: the backend test `x.sqrt().fract() == 0` for the
(nonnegative) squared magnitude — whether the square root of the magnitude is
an integer. -/
def sqrt_fract_is_zero (q : Mag) : Bool :=
  q.num.tmod (q.den : Int) == 0 && (0 ≤ q.num) &&
    isqrt (q.num.natAbs / q.den) * isqrt (q.num.natAbs / q.den) == q.num.natAbs / q.den

/-- `round` from `rounding.rs`: absorb floating-point noise near an integer
boundary. Thresholds (as `10 ^ (-limit)` comparisons, see `log10_lt_neg`)
depend on whether the integer part is zero. -/
def round (input : KalkValue) (complex_number_type : ComplexNumberType) :
    Option KalkValue :=
  match input with
  | KalkValue.Number real imaginary _ =>
    let value := match complex_number_type with
      | ComplexNumberType.Real => real
      | ComplexNumberType.Imaginary => imaginary
    let sign : Mag := if Mag.lt value (Mag.ofInt 0) then Mag.ofInt (-1) else Mag.ofInt 1
    let fract := value.abs.fract
    let integer := value.abs.trunc
    let limits : Nat × Nat := if integer.isZero then (8, 5) else (4, 6)
    if log10_lt_neg fract limits.1 then
      let new_value := integer.mul sign
      some (match complex_number_type with
        | ComplexNumberType.Real => KalkValue.Number new_value imaginary input.get_unit
        | ComplexNumberType.Imaginary => KalkValue.Number real new_value input.get_unit)
    else if log10_lt_neg (Mag.one.sub fract) limits.2 then
      let new_value := value.abs.ceil.mul sign
      some (match complex_number_type with
        | ComplexNumberType.Real => KalkValue.Number new_value imaginary input.get_unit
        | ComplexNumberType.Imaginary => KalkValue.Number real new_value input.get_unit)
    else none

/-- Modelled from the spec (§4.2 step 5): `KalkValue::round_if_needed` (in
`kalk_value/mod.rs`, outside the two source files) rounds the value with the
magnitude-based heuristic if it applies, else returns the raw value. -/
def round_if_needed (v : KalkValue) : KalkValue :=
  match round v ComplexNumberType.Real with
  | some r => r
  | none => v

/-- Modelled from the spec: `to_string_real(10)` — the 10-digit rendering of
the real component (external `KalkValue` method). -/
def to_string_real (v : KalkValue) (prec : Nat) : String := magToString v.re prec

/-- Modelled from the spec: `to_string_imaginary(10, true)` — the 10-digit
rendering of the imaginary component (external `KalkValue` method). -/
def to_string_imaginary (v : KalkValue) (prec : Nat) (_force_sign : Bool) : String :=
  magToString v.im prec

/-- The body of `estimate` from `rounding.rs`, with the two externally
produced strings (the component rendering `value_string` and the rendering
`fract_as_string` of the fractional part) passed explicitly. The decision
cascade and every guard mirror the source; a guarded early `return` inside a
nested `if` becomes a conjunction of the guards. -/
def estimate_with (input : KalkValue) (complex_number_type : ComplexNumberType)
    (value_string fract_as_string : String) : Option String :=
  let value := input.component complex_number_type
  let fract := value.fract.abs
  let integer := value.trunc
  -- If it's an integer, there's nothing that would be done to it.
  if fract.isZero then none
  else
    -- Eg. 0.5 to 1/2
    let as_abs_string := stripMinus value_string
    let sign := signStr value
    if halfCond as_abs_string then some (sign ++ "1/2")
    -- Eg. 1.33333333 to 1 + 1/3
    else if decide (7 ≤ strLen fract_as_string) &&
        (strSub fract_as_string 2 7 == "33333" ||
         strSub fract_as_string 2 7 == "66666") then
      let fraction :=
        if strSub fract_as_string 2 7 == "33333" then "1/3"
        else if strSub fract_as_string 2 7 == "66666" then "2/3"
        else "?"
      if integer.isZero then some (sign ++ fraction)
      else
        let explicit_sign := if sign == "" then "+" else "-"
        some (trim_zeroes (magToString integer 10) ++ " " ++ explicit_sign ++
              " " ++ fraction)
    else
      -- Match with common numbers, eg. π, 2π/3, √2
      match (if decide (8 ≤ strLen as_abs_string) then
               lookupStr CONSTANTS (strSub as_abs_string 0 8)
             else none) with
      | some constant => some (sign ++ constant)
      | none =>
        -- If the value squared (and rounded) is an integer, express as √(x²)
        let squared :=
          (round_if_needed (KalkValue.Number (value.mul value) (Mag.ofInt 0) "")).re
        if !fract.isZero && !(sqrt_fract_is_zero squared) && squared.fract.isZero then
          some ("√" ++ magToString squared 10)
        else
          -- If nothing above was relevant, simply round it off a bit
          match round input complex_number_type with
          | none => none
          | some r =>
            let rounded := r.component complex_number_type
            let rounded_str := magToString rounded 10
            some (trim_zeroes (if rounded_str == "-0" then "0" else rounded_str))

/-- `estimate` from `rounding.rs`: produce an optional canonical display
string for the selected component. The component rendering and the rendering
of the fractional part come from the external backend (see `magToString`). -/
def estimate (input : KalkValue) (complex_number_type : ComplexNumberType) :
    Option String :=
  let value := input.component complex_number_type
  let value_string := match complex_number_type with
    | ComplexNumberType.Real => to_string_real input 10
    | ComplexNumberType.Imaginary => to_string_imaginary input 10 true
  let fract_as_string := magToString value.fract.abs 10
  estimate_with input complex_number_type value_string fract_as_string

/-! ## The parser (`src/parser.rs`) -/

/-- The closed set of token kinds the parser dispatches on (the lexer that
produces them is external). The Rust enum is fieldless; the token payload
lives in `Token.value`. -/
inductive TokenKind where
  | Literal
  | Identifier
  | Plus
  | Minus
  | Star
  | Slash
  | Power
  | OpenParenthesis
  | ClosedParenthesis
  | Pipe
  | Comma
  | Equals
  | Deg
  | Rad
  | EOF
  deriving DecidableEq, Repr

/-- `TokenKind::is_unit`. -/
def TokenKind.is_unit : TokenKind → Bool
  | .Deg => true
  | .Rad => true
  | _ => false

/-- `TokenKind::compare`: discriminant equality, which for a fieldless enum
is plain equality. -/
def TokenKind.compare (a b : TokenKind) : Bool := a == b

/-- A lexical token: kind plus payload string. -/
structure Token where
  kind : TokenKind
  value : String
  deriving DecidableEq, Repr

/-- The AST expression type (`Expr` in `parser.rs`). -/
inductive Expr where
  | Binary (left : Expr) (op : TokenKind) (right : Expr)
  | Unary (op : TokenKind) (operand : Expr)
  | Unit (operand : Expr) (unit : TokenKind)
  | Var (name : String)
  | Group (inner : Expr)
  | FnCall (name : String) (args : List Expr)
  | Literal (text : String)
  deriving Repr

/-- The statement type (`Stmt` in `parser.rs`). -/
inductive Stmt where
  | VarDecl (name : String) (value : Expr)
  | FnDecl (name : String) (params : List String) (body : Expr)
  | Expr (e : Expr)
  deriving Repr

/-- Modelled from the spec: the symbol table (external `symbol_table.rs`)
maps a name to its most recent declaration statement; it is an association
list whose lookups take the most recent entry, so insertion prepends. -/
abbrev SymbolTable := List (String × Stmt)

/-- Modelled from the spec: `SymbolTable::insert` — create or overwrite the
entry for `key`. -/
def st_insert (t : SymbolTable) (key : String) (v : Stmt) : SymbolTable :=
  (key, v) :: t

/-- Modelled from the spec: `SymbolTable::contains_func` — the "function
exists" query, on the key `name()`. -/
def contains_func (t : SymbolTable) (name : String) : Bool :=
  t.any (fun kv => kv.1 == name ++ "()")

/-- `ParserContext`: token stream, cursor and symbol table. -/
structure ParserContext where
  tokens : List Token
  pos : Nat
  symbol_table : SymbolTable

/-- Outcome of a parser routine: `ok`/`err` mirror `Result<_, String>`
(carrying the context, which in Rust is a `&mut` the caller keeps either
way), and `panic` marks an aborted process — an out-of-bounds token index or
a failed `unwrap` (and, in this embedding only, exhausted fuel). -/
inductive PRes (α : Type) where
  | ok (a : α) (ctx : ParserContext)
  | err (msg : String) (ctx : ParserContext)
  | panic

/-- Sequencing of parser routines: the Rust `?` operator (errors and panics
propagate). -/
def PRes.andThen {α β : Type} : PRes α → (α → ParserContext → PRes β) → PRes β
  | .ok a c, f => f a c
  | .err e c, _ => .err e c
  | .panic, _ => .panic

/-- `is_at_end`: cursor at or past the end, or looking at the end-of-input
token. The Rust `||` short-circuits, so the index is only read in bounds. -/
def is_at_end (c : ParserContext) : Bool :=
  decide (c.tokens.length ≤ c.pos) ||
    (match c.tokens.get? c.pos with
     | some t => t.kind.compare TokenKind.EOF
     | none => false)

/-- `peek`: read the token under the cursor; out of bounds is a panic. -/
def peekP (c : ParserContext) : PRes Token :=
  match c.tokens.get? c.pos with
  | some t => .ok t c
  | none => .panic

/-- `peek_next`: read one token ahead; out of bounds is a panic. -/
def peek_nextP (c : ParserContext) : PRes Token :=
  match c.tokens.get? (c.pos + 1) with
  | some t => .ok t c
  | none => .panic

/-- `advance`: move the cursor forward (to `pos + 1`) and return the token
just passed (index `pos + 1 - 1`); out of bounds is a panic. -/
def advance (c : ParserContext) : PRes Token :=
  match c.tokens.get? (c.pos + 1 - 1) with
  | some t => .ok t { c with pos := c.pos + 1 }
  | none => .panic

/-- `match_token`: false at end of input, else compare the current kind. -/
def match_token (c : ParserContext) (kind : TokenKind) : Bool :=
  if is_at_end c then false
  else
    match c.tokens.get? c.pos with
    | some t => t.kind.compare kind
    | none => false

/-- `consume`: advance past an expected kind or fail with the generic
syntax error. -/
def consume (c : ParserContext) (kind : TokenKind) : PRes Token :=
  if match_token c kind then advance c
  else .err "Unexpected token" c

/-- The parameter-extraction loop of `parse_identifier_stmt`: keep the call
arguments that are bare variable references, silently skipping the rest. -/
def extract_params : List Expr → List String
  | [] => []
  | Expr.Var v :: rest => v :: extract_params rest
  | _ :: rest => extract_params rest

/-- One level of the mutually recursive parser: the routines of `parser.rs`
(plus the two `while` loops written as recursive routines, and the
statement-collecting loop of `parse`). Each level's routines call the
previous level's, which models the mutual recursion with fuel while keeping
every definition structural, hence kernel-computable. -/
structure ParserFns where
  stmt : ParserContext → PRes Stmt
  identifier_stmt : ParserContext → PRes Stmt
  var_decl_stmt : ParserContext → PRes Stmt
  expr : ParserContext → PRes Expr
  sum : ParserContext → PRes Expr
  sum_loop : Expr → ParserContext → PRes Expr
  factor : ParserContext → PRes Expr
  factor_loop : Expr → ParserContext → PRes Expr
  unary : ParserContext → PRes Expr
  exponent : ParserContext → PRes Expr
  primary : ParserContext → PRes Expr
  group : ParserContext → PRes Expr
  abs : ParserContext → PRes Expr
  identifier : ParserContext → PRes Expr
  params_loop : List Expr → ParserContext → PRes (List Expr)
  stmts_loop : List Stmt → ParserContext → PRes (List Stmt)

/-- `parse_stmt`: dispatch on a leading identifier by peeking one ahead. -/
def parse_stmt_body (p : ParserFns) (c : ParserContext) : PRes Stmt :=
  if match_token c TokenKind.Identifier then
    (peek_nextP c).andThen fun t c1 =>
      match t.kind with
      | TokenKind.Equals => p.var_decl_stmt c1
      | TokenKind.OpenParenthesis => p.identifier_stmt c1
      | _ => (p.expr c1).andThen fun e c2 => .ok (Stmt.Expr e) c2
  else
    (p.expr c).andThen fun e c2 => .ok (Stmt.Expr e) c2

/-- `parse_identifier_stmt`: parse a function-call-shaped primary; if an
equals sign follows, reinterpret it as a function declaration (registering
it in the symbol table), else rewind and re-parse as an expression. -/
def parse_identifier_stmt_body (p : ParserFns) (c : ParserContext) : PRes Stmt :=
  let began_at := c.pos
  (p.primary c).andThen fun primary c1 =>
    (peekP c1).andThen fun t c1 =>
      if t.kind == TokenKind.Equals then
        (advance c1).andThen fun _ c2 =>
          (p.expr c2).andThen fun expr c3 =>
            match primary with
            | Expr.FnCall identifier parameters =>
              let parameter_identifiers := extract_params parameters
              let fn_decl := Stmt.FnDecl identifier parameter_identifiers expr
              .ok fn_decl
                { c3 with symbol_table :=
                    st_insert c3.symbol_table (identifier ++ "()") fn_decl }
            | _ => .err "Parsing error." c3
      else
        (p.expr { c1 with pos := began_at }).andThen fun e c2 =>
          .ok (Stmt.Expr e) c2

/-- `parse_var_decl_stmt`. -/
def parse_var_decl_stmt_body (p : ParserFns) (c : ParserContext) : PRes Stmt :=
  (advance c).andThen fun identifier c1 =>
    (advance c1).andThen fun _ c2 =>
      (p.expr c2).andThen fun expr c3 =>
        .ok (Stmt.VarDecl identifier.value expr) c3

/-- `parse_expr`. -/
def parse_expr_body (p : ParserFns) (c : ParserContext) : PRes Expr := p.sum c

/-- `parse_sum`, entry. -/
def parse_sum_body (p : ParserFns) (c : ParserContext) : PRes Expr :=
  (p.factor c).andThen p.sum_loop

/-- `parse_sum`, loop. -/
def parse_sum_loop_body (p : ParserFns) (left : Expr) (c : ParserContext) :
    PRes Expr :=
  if match_token c TokenKind.Plus || match_token c TokenKind.Minus then
    (peekP c).andThen fun t c0 =>
      (advance c0).andThen fun _ c1 =>
        (p.factor c1).andThen fun right c2 =>
          p.sum_loop (Expr.Binary left t.kind right) c2
  else .ok left c

/-- `parse_factor`, entry. -/
def parse_factor_body (p : ParserFns) (c : ParserContext) : PRes Expr :=
  (p.unary c).andThen p.factor_loop

/-- `parse_factor`, loop. An identifier in operator position is implicit
multiplication: the operator becomes `Star` and the identifier token is not
consumed as an operator. -/
def parse_factor_loop_body (p : ParserFns) (left : Expr) (c : ParserContext) :
    PRes Expr :=
  if match_token c TokenKind.Star || match_token c TokenKind.Slash ||
      match_token c TokenKind.Identifier then
    (peekP c).andThen fun t c0 =>
      if t.kind == TokenKind.Identifier then
        (p.unary c0).andThen fun right c1 =>
          p.factor_loop (Expr.Binary left TokenKind.Star right) c1
      else
        (advance c0).andThen fun _ c1 =>
          (p.unary c1).andThen fun right c2 =>
            p.factor_loop (Expr.Binary left t.kind right) c2
  else .ok left c

/-- `parse_unary`. -/
def parse_unary_body (p : ParserFns) (c : ParserContext) : PRes Expr :=
  if match_token c TokenKind.Minus then
    (advance c).andThen fun op c1 =>
      (p.unary c1).andThen fun e c2 => .ok (Expr.Unary op.kind e) c2
  else p.exponent c

/-- `parse_exponent` (right-associative). -/
def parse_exponent_body (p : ParserFns) (c : ParserContext) : PRes Expr :=
  (p.primary c).andThen fun left c1 =>
    if match_token c1 TokenKind.Power then
      (advance c1).andThen fun op c2 =>
        (p.exponent c2).andThen fun right c3 =>
          .ok (Expr.Binary left op.kind right) c3
    else .ok left c1

/-- `parse_primary`; the default arm consumes whatever token is under the
cursor as a `Literal`. A following unit suffix wraps the result. -/
def parse_primary_body (p : ParserFns) (c : ParserContext) : PRes Expr :=
  (peekP c).andThen fun t c0 =>
    (match t.kind with
     | TokenKind.OpenParenthesis => p.group c0
     | TokenKind.Pipe => p.abs c0
     | TokenKind.Identifier => p.identifier c0
     | _ => (advance c0).andThen fun tok c1 => .ok (Expr.Literal tok.value) c1
    ).andThen fun e c1 =>
      if is_at_end c1 then .ok e c1
      else
        (peekP c1).andThen fun u c1 =>
          if u.kind.is_unit then
            (advance c1).andThen fun utok c2 => .ok (Expr.Unit e utok.kind) c2
          else .ok e c1

/-- `parse_group`. -/
def parse_group_body (p : ParserFns) (c : ParserContext) : PRes Expr :=
  (advance c).andThen fun _ c1 =>
    (p.expr c1).andThen fun e c2 =>
      (consume c2 TokenKind.ClosedParenthesis).andThen fun _ c3 =>
        .ok (Expr.Group e) c3

/-- `parse_abs`: absolute-value bars become a call to `abs`. -/
def parse_abs_body (p : ParserFns) (c : ParserContext) : PRes Expr :=
  (advance c).andThen fun _ c1 =>
    (p.expr c1).andThen fun e c2 =>
      (consume c2 TokenKind.Pipe).andThen fun _ c3 =>
        .ok (Expr.FnCall "abs" [Expr.Group e]) c3

/-- `parse_identifier`: juxtaposed call of a known function, parenthesized
call, or bare variable. -/
def parse_identifier_body (p : ParserFns) (c : ParserContext) : PRes Expr :=
  (advance c).andThen fun identifier c1 =>
    if match_token c1 TokenKind.Literal &&
        contains_func c1.symbol_table identifier.value then
      (advance c1).andThen fun tok c2 =>
        .ok (Expr.FnCall identifier.value [Expr.Literal tok.value]) c2
    else if match_token c1 TokenKind.OpenParenthesis then
      (advance c1).andThen fun _ c2 =>
        (p.expr c2).andThen fun first c3 =>
          (p.params_loop [first] c3).andThen fun parameters c4 =>
            (consume c4 TokenKind.ClosedParenthesis).andThen fun _ c5 =>
              .ok (Expr.FnCall identifier.value parameters) c5
    else .ok (Expr.Var identifier.value) c1

/-- The comma-separated argument loop of `parse_identifier`. -/
def parse_params_loop_body (p : ParserFns) (acc : List Expr) (c : ParserContext) :
    PRes (List Expr) :=
  if match_token c TokenKind.Comma then
    (advance c).andThen fun _ c1 =>
      (p.expr c1).andThen fun e c2 =>
        p.params_loop (acc ++ [e]) c2
  else .ok acc c

/-- The statement-collecting `while !is_at_end` loop of `parse`. -/
def parse_stmts_loop_body (p : ParserFns) (acc : List Stmt) (c : ParserContext) :
    PRes (List Stmt) :=
  if is_at_end c then .ok acc c
  else
    (p.stmt c).andThen fun s c1 =>
      p.stmts_loop (acc ++ [s]) c1

/-- The fuel-exhausted parser level: every routine panics. -/
def parserStop : ParserFns where
  stmt := fun _ => .panic
  identifier_stmt := fun _ => .panic
  var_decl_stmt := fun _ => .panic
  expr := fun _ => .panic
  sum := fun _ => .panic
  sum_loop := fun _ _ => .panic
  factor := fun _ => .panic
  factor_loop := fun _ _ => .panic
  unary := fun _ => .panic
  exponent := fun _ => .panic
  primary := fun _ => .panic
  group := fun _ => .panic
  abs := fun _ => .panic
  identifier := fun _ => .panic
  params_loop := fun _ _ => .panic
  stmts_loop := fun _ _ => .panic

/-- The parser at a given fuel level. -/
def parsers : Nat → ParserFns
  | 0 => parserStop
  | fuel + 1 =>
    let p := parsers fuel
    { stmt := parse_stmt_body p
      identifier_stmt := parse_identifier_stmt_body p
      var_decl_stmt := parse_var_decl_stmt_body p
      expr := parse_expr_body p
      sum := parse_sum_body p
      sum_loop := parse_sum_loop_body p
      factor := parse_factor_body p
      factor_loop := parse_factor_loop_body p
      unary := parse_unary_body p
      exponent := parse_exponent_body p
      primary := parse_primary_body p
      group := parse_group_body p
      abs := parse_abs_body p
      identifier := parse_identifier_body p
      params_loop := parse_params_loop_body p
      stmts_loop := parse_stmts_loop_body p }

/-- `parse_stmt` at a fuel level. -/
def parse_stmt (fuel : Nat) (c : ParserContext) : PRes Stmt :=
  (parsers fuel).stmt c

/-- `parse`: load the (externally lexed) token stream into the context,
collect statements until end of input, then hand them to the external
interpreter — whose result the source immediately `unwrap`s, so an
interpreter error aborts the process (`panic`) while a success is wrapped in
`Ok`. The `angle_unit` argument only parameterizes the external interpreter
and is absorbed into `interpret` here. -/
def parse (interpret : List Stmt → Except String Mag) (context : ParserContext)
    (input_tokens : List Token) (fuel : Nat) : PRes Mag :=
  let c : ParserContext := { context with tokens := input_tokens }
  ((parsers fuel).stmts_loop [] c).andThen fun statements c' =>
    match interpret statements with
    | Except.ok v => .ok v c'
    | Except.error _ => .panic

/-! ## Predicates used by the claim statements -/

/-- The symbol table of the outcome context equals `t` (errors keep the
context too; a panic has no observable context). -/
def table_preserved {α : Type} (t : SymbolTable) : PRes α → Prop
  | .ok _ c' => c'.symbol_table = t
  | .err _ c' => c'.symbol_table = t
  | .panic => True

/-- The symbol-table effect of parsing one statement: on success exactly one
entry keyed `name()` is inserted when the result is a function declaration,
and the table is unchanged otherwise (also on error). -/
def stmt_table_effect (t : SymbolTable) : PRes Stmt → Prop
  | .ok s c' =>
    match s with
    | Stmt.FnDecl n _ _ => c'.symbol_table = st_insert t (n ++ "()") s
    | _ => c'.symbol_table = t
  | .err _ c' => c'.symbol_table = t
  | .panic => True

/-- The parser-level invariant: expression routines leave the symbol table
unchanged, and statement routines have the effect of `stmt_table_effect`. -/
def preserves_tables (p : ParserFns) : Prop :=
  (∀ c, table_preserved c.symbol_table (p.expr c)) ∧
  (∀ c, table_preserved c.symbol_table (p.sum c)) ∧
  (∀ l c, table_preserved c.symbol_table (p.sum_loop l c)) ∧
  (∀ c, table_preserved c.symbol_table (p.factor c)) ∧
  (∀ l c, table_preserved c.symbol_table (p.factor_loop l c)) ∧
  (∀ c, table_preserved c.symbol_table (p.unary c)) ∧
  (∀ c, table_preserved c.symbol_table (p.exponent c)) ∧
  (∀ c, table_preserved c.symbol_table (p.primary c)) ∧
  (∀ c, table_preserved c.symbol_table (p.group c)) ∧
  (∀ c, table_preserved c.symbol_table (p.abs c)) ∧
  (∀ c, table_preserved c.symbol_table (p.identifier c)) ∧
  (∀ l c, table_preserved c.symbol_table (p.params_loop l c)) ∧
  (∀ c, stmt_table_effect c.symbol_table (p.stmt c)) ∧
  (∀ c, stmt_table_effect c.symbol_table (p.identifier_stmt c)) ∧
  (∀ c, stmt_table_effect c.symbol_table (p.var_decl_stmt c))

/-! ## Concrete token streams used by the claims (the lexer is external; the
streams below are the lexings the claims name, each ending in the
end-of-input sentinel) -/

/-- The token stream of `"3y"`. -/
def toks_3y : List Token :=
  [⟨TokenKind.Literal, "3"⟩, ⟨TokenKind.Identifier, "y"⟩, ⟨TokenKind.EOF, ""⟩]

/-- The token stream of `"3*y"`. -/
def toks_3_star_y : List Token :=
  [⟨TokenKind.Literal, "3"⟩, ⟨TokenKind.Star, "*"⟩, ⟨TokenKind.Identifier, "y"⟩,
   ⟨TokenKind.EOF, ""⟩]

/-- The token stream of `"3+"`, with a given end-of-input payload. -/
def toks_3_plus (eof_payload : String) : List Token :=
  [⟨TokenKind.Literal, "3"⟩, ⟨TokenKind.Plus, "+"⟩, ⟨TokenKind.EOF, eof_payload⟩]

/-- The token stream of `"f(3)=x"` — a function-declaration-shaped statement
whose single call argument is a literal, not a bare variable. -/
def toks_fn_lit_param : List Token :=
  [⟨TokenKind.Identifier, "f"⟩, ⟨TokenKind.OpenParenthesis, "("⟩,
   ⟨TokenKind.Literal, "3"⟩, ⟨TokenKind.ClosedParenthesis, ")"⟩,
   ⟨TokenKind.Equals, "="⟩, ⟨TokenKind.Identifier, "x"⟩, ⟨TokenKind.EOF, ""⟩]

/-- The token stream of `"g(x,3,y)=x"` — call arguments mixing bare
variables and a literal. -/
def toks_fn_mixed_params : List Token :=
  [⟨TokenKind.Identifier, "g"⟩, ⟨TokenKind.OpenParenthesis, "("⟩,
   ⟨TokenKind.Identifier, "x"⟩, ⟨TokenKind.Comma, ","⟩,
   ⟨TokenKind.Literal, "3"⟩, ⟨TokenKind.Comma, ","⟩,
   ⟨TokenKind.Identifier, "y"⟩, ⟨TokenKind.ClosedParenthesis, ")"⟩,
   ⟨TokenKind.Equals, "="⟩, ⟨TokenKind.Identifier, "x"⟩, ⟨TokenKind.EOF, ""⟩]

/-- The token stream of `"1"`. -/
def toks_lit_1 : List Token := [⟨TokenKind.Literal, "1"⟩, ⟨TokenKind.EOF, ""⟩]

/-- The token stream of `"x=1"`. -/
def toks_var_decl : List Token :=
  [⟨TokenKind.Identifier, "x"⟩, ⟨TokenKind.Equals, "="⟩,
   ⟨TokenKind.Literal, "1"⟩, ⟨TokenKind.EOF, ""⟩]

/-- A symbol table in which `y` is a known variable. -/
def table_with_y : SymbolTable := [("y", Stmt.VarDecl "y" (Expr.Literal "1"))]

/-- An interpreter that fails on every statement sequence (the external
interpreter is opaque to the parser; this is one possible behaviour). -/
def failing_interpret : List Stmt → Except String Mag :=
  fun _ => Except.error "Evaluation error"

/-- An interpreter that succeeds with the value 7 on every statement
sequence. -/
def succeeding_interpret : List Stmt → Except String Mag :=
  fun _ => Except.ok (Mag.ofInt 7)

/-! ## String and rendering lemmas -/

theorem str_eq_iff_data {a b : String} : a = b ↔ a.data = b.data := by
  constructor
  · intro h
    rw [h]
  · intro h
    cases a
    cases b
    simp only at h
    rw [h]

theorem str_mk_ne_empty {l : List Char} (h : l ≠ []) : (⟨l⟩ : String) ≠ "" := by
  intro he
  exact h (str_eq_iff_data.mp he)

theorem str_append_ne_empty_right (a b : String) (h : b ≠ "") : a ++ b ≠ "" := by
  intro he
  apply h
  rw [str_eq_iff_data, String.data_append] at he
  rw [str_eq_iff_data]
  exact (List.append_eq_nil.mp he).2

theorem str_append_ne_empty_left (a b : String) (h : a ≠ "") : a ++ b ≠ "" := by
  intro he
  apply h
  rw [str_eq_iff_data, String.data_append] at he
  rw [str_eq_iff_data]
  exact (List.append_eq_nil.mp he).1

theorem decimalDigitChar_good (d : Nat) :
    decimalDigitChar d ≠ '.' ∧ decimalDigitChar d ≠ '/' ∧
      decimalDigitChar d ≠ '√' ∧ decimalDigitChar d ≠ ' ' ∧
      decimalDigitChar d ≠ '-' := by
  unfold decimalDigitChar
  have h : d % 10 < 10 := Nat.mod_lt _ (by decide)
  interval_cases hk : d % 10 <;> decide

theorem natDigitsAux_ne_nil (n fuel : Nat) : natDigitsAux n (fuel + 1) ≠ [] := by
  unfold natDigitsAux
  split
  · simp
  · simp

theorem natDigitsAux_mem (fuel : Nat) :
    ∀ n c, c ∈ natDigitsAux n fuel → ∃ m, c = decimalDigitChar m := by
  induction fuel with
  | zero => intro n c h; simp [natDigitsAux] at h
  | succ f ih =>
    intro n c h
    unfold natDigitsAux at h
    split at h
    · simp at h
      exact ⟨n, h⟩
    · rcases List.mem_append.mp h with h1 | h2
      · exact ih _ _ h1
      · simp at h2
        exact ⟨n % 10, h2⟩

theorem natDigits_ne_nil (n : Nat) : natDigits n ≠ [] := natDigitsAux_ne_nil n n

theorem natDigits_mem {n : Nat} {c : Char} (h : c ∈ natDigits n) :
    ∃ m, c = decimalDigitChar m := natDigitsAux_mem _ _ _ h

theorem fracDigits_mem (prec : Nat) :
    ∀ n d c, c ∈ fracDigits n d prec → ∃ m, c = decimalDigitChar m := by
  induction prec with
  | zero => intro n d c h; simp [fracDigits] at h
  | succ k ih =>
    intro n d c h
    unfold fracDigits at h
    rcases List.mem_cons.mp h with h1 | h2
    · exact ⟨n * 10 / d, h1⟩
    · exact ih _ _ _ h2

theorem dropWhile_head_false {p : Char → Bool} :
    ∀ (l : List Char) c cs, l.dropWhile p = c :: cs → p c = false := by
  intro l
  induction l with
  | nil => intro c cs h; simp [List.dropWhile] at h
  | cons a t ih =>
    intro c cs h
    rw [List.dropWhile_cons] at h
    split at h
    · exact ih c cs h
    · rename_i hpa
      cases h
      exact Bool.not_eq_true _ ▸ (by simpa using hpa)

theorem trim_zeroes_no_dot {l : List Char} (h : '.' ∉ l) :
    trim_zeroes ⟨l⟩ = ⟨l⟩ := by
  unfold trim_zeroes
  rw [if_neg]
  simp only [String.data]
  intro hc
  exact h (by simpa using hc)

theorem trim_zeroes_fixed {B : List Char} {c : Char} (h : B.getLast? = some c)
    (h0 : ¬ c = '0') (hdot : ¬ c = '.') : trim_zeroes ⟨B⟩ = ⟨B⟩ := by
  unfold trim_zeroes
  split
  · have hrev : B.reverse.head? = some c := by
      rw [List.head?_reverse]
      exact h
    cases hr : B.reverse with
    | nil => rw [hr] at hrev; simp at hrev
    | cons a rest =>
      rw [hr] at hrev
      simp only [List.head?] at hrev
      cases hrev
      have h0' : (c == '0') = false := by
        simp [h0]
      have hd' : (c == '.') = false := by
        simp [hdot]
      have e1 : List.dropWhile (fun ch => ch == '0') (c :: rest) = c :: rest := by
        rw [List.dropWhile_cons, h0']
        simp
      have e2 : List.dropWhile (fun ch => ch == '.') (c :: rest) = c :: rest := by
        rw [List.dropWhile_cons, hd']
        simp
      rw [str_eq_iff_data]
      show (List.dropWhile (fun ch => ch == '.')
        (List.dropWhile (fun ch => ch == '0') (c :: rest))).reverse = B
      rw [e1, e2, ← hr, List.reverse_reverse]
  · rfl

theorem trim_zeroes_subset (s : String) {c : Char}
    (h : c ∈ (trim_zeroes s).data) : c ∈ s.data := by
  unfold trim_zeroes at h
  split at h
  · simp only [String.data] at h
    rw [List.mem_reverse] at h
    have h1 := (List.dropWhile_sublist (fun ch => ch == '.')).subset h
    have h2 := (List.dropWhile_sublist (fun ch => ch == '0')).subset h1
    rwa [List.mem_reverse] at h2
  · exact h

theorem trim_zeroes_dot_shape (A ds : List Char) (_hA : A ≠ []) (hAdot : '.' ∉ A)
    (hdsdot : '.' ∉ ds) :
    trim_zeroes ⟨A ++ '.' :: ds⟩ = ⟨A⟩ ∨
      ∃ B c, trim_zeroes ⟨A ++ '.' :: ds⟩ = ⟨B⟩ ∧ B ≠ [] ∧ B.getLast? = some c ∧
        ¬ c = '0' ∧ ¬ c = '.' := by
  have hcont : ((A ++ '.' :: ds).contains '.') = true := by
    simp
  have hrev : (A ++ '.' :: ds).reverse = ds.reverse ++ '.' :: A.reverse := by
    rw [List.reverse_append, List.reverse_cons, List.append_assoc]
    simp
  have hT : trim_zeroes ⟨A ++ '.' :: ds⟩ =
      ⟨(((A ++ '.' :: ds).reverse.dropWhile (fun ch => ch == '0')).dropWhile
          (fun ch => ch == '.')).reverse⟩ := by
    unfold trim_zeroes
    rw [if_pos hcont]
  cases hdw : List.dropWhile (fun ch => ch == '0') ds.reverse with
  | nil =>
    left
    have e0 : List.dropWhile (fun ch => ch == '0') (ds.reverse ++ '.' :: A.reverse)
        = '.' :: A.reverse := by
      rw [List.dropWhile_append, hdw]
      simp
    have e1 : List.dropWhile (fun ch => ch == '.') ('.' :: A.reverse) =
        List.dropWhile (fun ch => ch == '.') A.reverse := by
      rw [List.dropWhile_cons]
      simp
    have e2 : List.dropWhile (fun ch => ch == '.') A.reverse = A.reverse := by
      cases ha : A.reverse with
      | nil => simp
      | cons a rest =>
        have haA : a ∈ A := by
          rw [← List.mem_reverse, ha]
          exact List.mem_cons_self a rest
        have hane : (a == '.') = false := by
          simp
          intro he
          exact hAdot (he ▸ haA)
        rw [List.dropWhile_cons, hane]
        simp
    rw [hT, hrev, e0, e1, e2, List.reverse_reverse]
  | cons c cs =>
    right
    have hc0 : ((fun ch => ch == '0') c) = false :=
      dropWhile_head_false ds.reverse c cs hdw
    have hcds : c ∈ ds := by
      have h1 : c ∈ List.dropWhile (fun ch => ch == '0') ds.reverse := by
        rw [hdw]
        exact List.mem_cons_self c cs
      have h2 := (List.dropWhile_sublist (fun ch => ch == '0')).subset h1
      rwa [List.mem_reverse] at h2
    have hcdot : ¬ c = '.' := fun he => hdsdot (he ▸ hcds)
    have e0 : List.dropWhile (fun ch => ch == '0') (ds.reverse ++ '.' :: A.reverse)
        = c :: (cs ++ '.' :: A.reverse) := by
      rw [List.dropWhile_append, hdw]
      simp
    have e1 : List.dropWhile (fun ch => ch == '.') (c :: (cs ++ '.' :: A.reverse))
        = c :: (cs ++ '.' :: A.reverse) := by
      have hcd : (c == '.') = false := by
        simp [hcdot]
      rw [List.dropWhile_cons, hcd]
      simp
    refine ⟨(c :: (cs ++ '.' :: A.reverse)).reverse, c, ?_, ?_, ?_, ?_, hcdot⟩
    · rw [hT, hrev, e0, e1]
    · simp
    · rw [List.getLast?_reverse]
      rfl
    · intro he
      rw [he] at hc0
      simp at hc0

theorem trim_zeroes_dot_facts (A ds : List Char) (hA : A ≠ []) (hAdot : '.' ∉ A)
    (hdsdot : '.' ∉ ds) :
    trim_zeroes ⟨A ++ '.' :: ds⟩ ≠ "" ∧
      trim_zeroes (trim_zeroes ⟨A ++ '.' :: ds⟩) = trim_zeroes ⟨A ++ '.' :: ds⟩ := by
  rcases trim_zeroes_dot_shape A ds hA hAdot hdsdot with h | ⟨B, c, hB, hBne, hlast, h0, hdot⟩
  · constructor
    · rw [h]
      exact str_mk_ne_empty hA
    · rw [h, trim_zeroes_no_dot hAdot]
  · constructor
    · rw [hB]
      exact str_mk_ne_empty hBne
    · rw [hB, trim_zeroes_fixed hlast h0 hdot]

theorem magDigitsList_split (q : Mag) (prec : Nat) :
    ∃ A, magDigitsList q prec =
        A ++ '.' :: fracDigits (q.num.natAbs % q.den) q.den prec ∧
      A ≠ [] ∧ '.' ∉ A ∧ ∀ ch ∈ A, ch ≠ '/' ∧ ch ≠ '√' ∧ ch ≠ ' ' := by
  refine ⟨(if q.num < 0 then ['-'] else []) ++ natDigits (q.num.natAbs / q.den),
    ?_, ?_, ?_, ?_⟩
  · unfold magDigitsList
    rw [List.append_assoc]
  · intro h
    exact natDigits_ne_nil _ ((List.append_eq_nil.mp h).2)
  · intro h
    rcases List.mem_append.mp h with h1 | h2
    · split at h1 <;> simp at h1
    · rcases natDigits_mem h2 with ⟨m, hm⟩
      exact (decimalDigitChar_good m).1 hm.symm
  · intro ch hch
    rcases List.mem_append.mp hch with h1 | h2
    · split at h1 <;> simp at h1
      rw [h1]
      exact ⟨by decide, by decide, by decide⟩
    · rcases natDigits_mem h2 with ⟨m, hm⟩
      rw [hm]
      rcases decimalDigitChar_good m with ⟨_, g2, g3, g4, _⟩
      exact ⟨g2, g3, g4⟩

theorem fracDigits_no_dot (q : Mag) (prec : Nat) :
    '.' ∉ fracDigits (q.num.natAbs % q.den) q.den prec := by
  intro h
  rcases fracDigits_mem _ _ _ _ h with ⟨m, hm⟩
  exact (decimalDigitChar_good m).1 hm.symm

theorem magToString_ne_empty (q : Mag) (prec : Nat) : magToString q prec ≠ "" := by
  unfold magToString
  rcases magDigitsList_split q prec with ⟨A, hsplit, hA, hAdot, _⟩
  rw [hsplit]
  exact (trim_zeroes_dot_facts A _ hA hAdot (fracDigits_no_dot q prec)).1

theorem trim_zeroes_magToString (q : Mag) (prec : Nat) :
    trim_zeroes (magToString q prec) = magToString q prec := by
  unfold magToString
  rcases magDigitsList_split q prec with ⟨A, hsplit, hA, hAdot, _⟩
  rw [hsplit]
  exact (trim_zeroes_dot_facts A _ hA hAdot (fracDigits_no_dot q prec)).2

theorem magToString_chars (q : Mag) (prec : Nat) :
    ∀ ch ∈ (magToString q prec).data, ch ≠ '/' ∧ ch ≠ '√' ∧ ch ≠ ' ' := by
  intro ch hch
  unfold magToString at hch
  have hbase : ch ∈ magDigitsList q prec := trim_zeroes_subset _ hch
  rcases magDigitsList_split q prec with ⟨A, hsplit, _, _, hAok⟩
  rw [hsplit] at hbase
  rcases List.mem_append.mp hbase with h1 | h2
  · exact hAok ch h1
  · rcases List.mem_cons.mp h2 with h3 | h4
    · rw [h3]
      exact ⟨by decide, by decide, by decide⟩
    · rcases fracDigits_mem _ _ _ _ h4 with ⟨m, hm⟩
      rw [hm]
      rcases decimalDigitChar_good m with ⟨_, g2, g3, g4, _⟩
      exact ⟨g2, g3, g4⟩

theorem lookupStr_mem_values :
    ∀ (l : List (String × String)) (k c : String),
      lookupStr l k = some c → c ∈ l.map Prod.snd := by
  intro l
  induction l with
  | nil => intro k c h; simp [lookupStr] at h
  | cons kv rest ih =>
    intro k c h
    rw [lookupStr] at h
    split at h
    · cases h
      simp
    · simp only [List.map_cons, List.mem_cons]
      exact Or.inr (ih k c h)

theorem constants_values_good :
    ∀ c ∈ CONSTANTS.map Prod.snd, c ≠ "1/2" ∧ c ≠ "" := by
  decide

/-! ## Symbol-table frame lemmas for the parser -/

theorem table_preserved_andThen {α β : Type} {t : SymbolTable} {m : PRes α}
    {f : α → ParserContext → PRes β}
    (hm : table_preserved t m)
    (hf : ∀ a c', table_preserved c'.symbol_table (f a c')) :
    table_preserved t (m.andThen f) := by
  cases m with
  | ok a c' =>
    have hm' : c'.symbol_table = t := hm
    have := hf a c'
    rw [hm'] at this
    exact this
  | err e c' => exact hm
  | panic => trivial

theorem stmt_effect_andThen {α : Type} {t : SymbolTable} {m : PRes α}
    {f : α → ParserContext → PRes Stmt}
    (hm : table_preserved t m)
    (hf : ∀ a c', c'.symbol_table = t → stmt_table_effect t (f a c')) :
    stmt_table_effect t (m.andThen f) := by
  cases m with
  | ok a c' => exact hf a c' hm
  | err e c' => exact hm
  | panic => trivial

theorem table_preserved_ok {α : Type} {t : SymbolTable} {a : α} {c : ParserContext}
    (h : c.symbol_table = t) : table_preserved t (PRes.ok a c) := h

theorem table_preserved_peekP (c : ParserContext) :
    table_preserved c.symbol_table (peekP c) := by
  unfold peekP
  split
  · rfl
  · trivial

theorem table_preserved_peek_nextP (c : ParserContext) :
    table_preserved c.symbol_table (peek_nextP c) := by
  unfold peek_nextP
  split
  · rfl
  · trivial

theorem table_preserved_advance (c : ParserContext) :
    table_preserved c.symbol_table (advance c) := by
  unfold advance
  split
  · rfl
  · trivial

theorem table_preserved_consume (c : ParserContext) (k : TokenKind) :
    table_preserved c.symbol_table (consume c k) := by
  unfold consume
  split
  · exact table_preserved_advance c
  · rfl

theorem advance_table {c : ParserContext} {tok : Token} {c' : ParserContext}
    (h : advance c = PRes.ok tok c') : c'.symbol_table = c.symbol_table := by
  unfold advance at h
  split at h
  · cases h
    rfl
  · cases h

theorem peekP_table {c : ParserContext} {tok : Token} {c' : ParserContext}
    (h : peekP c = PRes.ok tok c') : c' = c := by
  unfold peekP at h
  split at h
  · cases h
    rfl
  · cases h

theorem pres_expr_body (p : ParserFns) (h : preserves_tables p)
    (c : ParserContext) : table_preserved c.symbol_table (parse_expr_body p c) :=
  h.2.1 c

theorem pres_sum_body (p : ParserFns) (h : preserves_tables p)
    (c : ParserContext) : table_preserved c.symbol_table (parse_sum_body p c) := by
  obtain ⟨he, hs, hsl, hf, hfl, hu, hex, hpr, hg, hab, hid, hpl, hst, hids, hvd⟩ := h
  unfold parse_sum_body
  exact table_preserved_andThen (hf c) (fun a c' => hsl a c')

theorem pres_sum_loop_body (p : ParserFns) (h : preserves_tables p)
    (left : Expr) (c : ParserContext) :
    table_preserved c.symbol_table (parse_sum_loop_body p left c) := by
  obtain ⟨he, hs, hsl, hf, hfl, hu, hex, hpr, hg, hab, hid, hpl, hst, hids, hvd⟩ := h
  unfold parse_sum_loop_body
  split
  · apply table_preserved_andThen (table_preserved_peekP c)
    intro t c0
    apply table_preserved_andThen (table_preserved_advance c0)
    intro _ c1
    apply table_preserved_andThen (hf c1)
    intro right c2
    exact hsl _ c2
  · rfl

theorem pres_factor_body (p : ParserFns) (h : preserves_tables p)
    (c : ParserContext) : table_preserved c.symbol_table (parse_factor_body p c) := by
  obtain ⟨he, hs, hsl, hf, hfl, hu, hex, hpr, hg, hab, hid, hpl, hst, hids, hvd⟩ := h
  unfold parse_factor_body
  exact table_preserved_andThen (hu c) (fun a c' => hfl a c')

theorem pres_factor_loop_body (p : ParserFns) (h : preserves_tables p)
    (left : Expr) (c : ParserContext) :
    table_preserved c.symbol_table (parse_factor_loop_body p left c) := by
  obtain ⟨he, hs, hsl, hf, hfl, hu, hex, hpr, hg, hab, hid, hpl, hst, hids, hvd⟩ := h
  unfold parse_factor_loop_body
  split
  · apply table_preserved_andThen (table_preserved_peekP c)
    intro t c0
    split
    · apply table_preserved_andThen (hu c0)
      intro r c1
      exact hfl _ c1
    · apply table_preserved_andThen (table_preserved_advance c0)
      intro _ c1
      apply table_preserved_andThen (hu c1)
      intro r c2
      exact hfl _ c2
  · rfl

theorem pres_unary_body (p : ParserFns) (h : preserves_tables p)
    (c : ParserContext) : table_preserved c.symbol_table (parse_unary_body p c) := by
  obtain ⟨he, hs, hsl, hf, hfl, hu, hex, hpr, hg, hab, hid, hpl, hst, hids, hvd⟩ := h
  unfold parse_unary_body
  split
  · apply table_preserved_andThen (table_preserved_advance c)
    intro op c1
    apply table_preserved_andThen (hu c1)
    intro e c2
    rfl
  · exact hex c

theorem pres_exponent_body (p : ParserFns) (h : preserves_tables p)
    (c : ParserContext) :
    table_preserved c.symbol_table (parse_exponent_body p c) := by
  obtain ⟨he, hs, hsl, hf, hfl, hu, hex, hpr, hg, hab, hid, hpl, hst, hids, hvd⟩ := h
  unfold parse_exponent_body
  apply table_preserved_andThen (hpr c)
  intro left c1
  split
  · apply table_preserved_andThen (table_preserved_advance c1)
    intro op c2
    apply table_preserved_andThen (hex c2)
    intro right c3
    rfl
  · rfl

theorem pres_primary_body (p : ParserFns) (h : preserves_tables p)
    (c : ParserContext) :
    table_preserved c.symbol_table (parse_primary_body p c) := by
  obtain ⟨he, hs, hsl, hf, hfl, hu, hex, hpr, hg, hab, hid, hpl, hst, hids, hvd⟩ := h
  unfold parse_primary_body
  apply table_preserved_andThen (table_preserved_peekP c)
  intro t c0
  apply table_preserved_andThen ?hm ?hf2
  case hf2 =>
    intro e c1
    split
    · rfl
    · apply table_preserved_andThen (table_preserved_peekP c1)
      intro u c1'
      split
      · apply table_preserved_andThen (table_preserved_advance c1')
        intro utok c2
        rfl
      · rfl
  case hm =>
    cases t.kind
    all_goals first
      | exact hg c0
      | exact hab c0
      | exact hid c0
      | (apply table_preserved_andThen (table_preserved_advance c0)
         intro tok c1
         rfl)

theorem pres_group_body (p : ParserFns) (h : preserves_tables p)
    (c : ParserContext) : table_preserved c.symbol_table (parse_group_body p c) := by
  obtain ⟨he, hs, hsl, hf, hfl, hu, hex, hpr, hg, hab, hid, hpl, hst, hids, hvd⟩ := h
  unfold parse_group_body
  apply table_preserved_andThen (table_preserved_advance c)
  intro _ c1
  apply table_preserved_andThen (he c1)
  intro e c2
  apply table_preserved_andThen (table_preserved_consume c2 _)
  intro _ c3
  rfl

theorem pres_abs_body (p : ParserFns) (h : preserves_tables p)
    (c : ParserContext) : table_preserved c.symbol_table (parse_abs_body p c) := by
  obtain ⟨he, hs, hsl, hf, hfl, hu, hex, hpr, hg, hab, hid, hpl, hst, hids, hvd⟩ := h
  unfold parse_abs_body
  apply table_preserved_andThen (table_preserved_advance c)
  intro _ c1
  apply table_preserved_andThen (he c1)
  intro e c2
  apply table_preserved_andThen (table_preserved_consume c2 _)
  intro _ c3
  rfl

theorem pres_identifier_body (p : ParserFns) (h : preserves_tables p)
    (c : ParserContext) :
    table_preserved c.symbol_table (parse_identifier_body p c) := by
  obtain ⟨he, hs, hsl, hf, hfl, hu, hex, hpr, hg, hab, hid, hpl, hst, hids, hvd⟩ := h
  unfold parse_identifier_body
  apply table_preserved_andThen (table_preserved_advance c)
  intro identifier c1
  split
  · apply table_preserved_andThen (table_preserved_advance c1)
    intro tok c2
    rfl
  · split
    · apply table_preserved_andThen (table_preserved_advance c1)
      intro _ c2
      apply table_preserved_andThen (he c2)
      intro first c3
      apply table_preserved_andThen (hpl _ c3)
      intro params c4
      apply table_preserved_andThen (table_preserved_consume c4 _)
      intro _ c5
      rfl
    · rfl

theorem pres_params_loop_body (p : ParserFns) (h : preserves_tables p)
    (acc : List Expr) (c : ParserContext) :
    table_preserved c.symbol_table (parse_params_loop_body p acc c) := by
  obtain ⟨he, hs, hsl, hf, hfl, hu, hex, hpr, hg, hab, hid, hpl, hst, hids, hvd⟩ := h
  unfold parse_params_loop_body
  split
  · apply table_preserved_andThen (table_preserved_advance c)
    intro _ c1
    apply table_preserved_andThen (he c1)
    intro e c2
    exact hpl _ c2
  · rfl

theorem eff_var_decl_stmt_body (p : ParserFns) (h : preserves_tables p)
    (c : ParserContext) :
    stmt_table_effect c.symbol_table (parse_var_decl_stmt_body p c) := by
  obtain ⟨he, hs, hsl, hf, hfl, hu, hex, hpr, hg, hab, hid, hpl, hst, hids, hvd⟩ := h
  unfold parse_var_decl_stmt_body
  apply stmt_effect_andThen (table_preserved_advance c)
  intro identifier c1 h1
  apply stmt_effect_andThen ?hm1 ?hf1
  case hm1 =>
    rw [← h1]
    exact table_preserved_advance c1
  case hf1 =>
    intro _ c2 h2
    apply stmt_effect_andThen ?hm2 ?hf2
    case hm2 =>
      rw [← h2]
      exact he c2
    case hf2 =>
      intro expr c3 h3
      exact h3

theorem eff_identifier_stmt_body (p : ParserFns) (h : preserves_tables p)
    (c : ParserContext) :
    stmt_table_effect c.symbol_table (parse_identifier_stmt_body p c) := by
  obtain ⟨he, hs, hsl, hf, hfl, hu, hex, hpr, hg, hab, hid, hpl, hst, hids, hvd⟩ := h
  unfold parse_identifier_stmt_body
  apply stmt_effect_andThen (hpr c)
  intro primary c1 h1
  apply stmt_effect_andThen ?hm1 ?hf1
  case hm1 =>
    rw [← h1]
    exact table_preserved_peekP c1
  case hf1 =>
    intro t c1' h1'
    split
    · apply stmt_effect_andThen ?hm2 ?hf2
      case hm2 =>
        rw [← h1']
        exact table_preserved_advance c1'
      case hf2 =>
        intro _ c2 h2
        apply stmt_effect_andThen ?hm3 ?hf3
        case hm3 =>
          rw [← h2]
          exact he c2
        case hf3 =>
          intro expr c3 h3
          cases primary
          case FnCall identifier parameters =>
            show st_insert c3.symbol_table (identifier ++ "()") _ =
              st_insert c.symbol_table (identifier ++ "()") _
            rw [h3]
          all_goals exact h3
    · apply stmt_effect_andThen ?hm4 ?hf4
      case hm4 =>
        have hp := he { c1' with pos := c.pos }
        rw [← h1']
        exact hp
      case hf4 =>
        intro e c2 h2
        exact h2

theorem eff_stmt_body (p : ParserFns) (h : preserves_tables p)
    (c : ParserContext) :
    stmt_table_effect c.symbol_table (parse_stmt_body p c) := by
  obtain ⟨he, hs, hsl, hf, hfl, hu, hex, hpr, hg, hab, hid, hpl, hst, hids, hvd⟩ := h
  have hP : preserves_tables p :=
    ⟨he, hs, hsl, hf, hfl, hu, hex, hpr, hg, hab, hid, hpl, hst, hids, hvd⟩
  unfold parse_stmt_body
  split
  · apply stmt_effect_andThen (table_preserved_peek_nextP c)
    intro t c1 h1
    cases t.kind
    case Equals =>
      rw [← h1]
      exact hvd c1
    case OpenParenthesis =>
      rw [← h1]
      exact hids c1
    all_goals
      exact stmt_effect_andThen (by rw [← h1]; exact he c1) (fun e c2 h2 => h2)
  · exact stmt_effect_andThen (he c) (fun e c2 h2 => h2)

theorem parsers_preserve : ∀ fuel, preserves_tables (parsers fuel) := by
  intro fuel
  induction fuel with
  | zero =>
    exact ⟨fun _ => True.intro, fun _ => True.intro, fun _ _ => True.intro,
           fun _ => True.intro, fun _ _ => True.intro, fun _ => True.intro,
           fun _ => True.intro, fun _ => True.intro, fun _ => True.intro,
           fun _ => True.intro, fun _ => True.intro, fun _ _ => True.intro,
           fun _ => True.intro, fun _ => True.intro, fun _ => True.intro⟩
  | succ n ih =>
    exact ⟨fun c => pres_expr_body (parsers n) ih c,
           fun c => pres_sum_body (parsers n) ih c,
           fun l c => pres_sum_loop_body (parsers n) ih l c,
           fun c => pres_factor_body (parsers n) ih c,
           fun l c => pres_factor_loop_body (parsers n) ih l c,
           fun c => pres_unary_body (parsers n) ih c,
           fun c => pres_exponent_body (parsers n) ih c,
           fun c => pres_primary_body (parsers n) ih c,
           fun c => pres_group_body (parsers n) ih c,
           fun c => pres_abs_body (parsers n) ih c,
           fun c => pres_identifier_body (parsers n) ih c,
           fun l c => pres_params_loop_body (parsers n) ih l c,
           fun c => eff_stmt_body (parsers n) ih c,
           fun c => eff_identifier_stmt_body (parsers n) ih c,
           fun c => eff_var_decl_stmt_body (parsers n) ih c⟩

/-! ## Lemmas about the estimation cascade -/

theorem str_append_left_cancel {a b c : String} (h : a ++ b = a ++ c) : b = c := by
  have hd := str_eq_iff_data.mp h
  rw [String.data_append, String.data_append] at hd
  exact str_eq_iff_data.mpr (List.append_cancel_left hd)

theorem mem_append_str_left (a b : String) {c : Char} (h : c ∈ a.data) :
    c ∈ (a ++ b).data := by
  rw [String.data_append]
  exact List.mem_append_left _ h

theorem mem_append_str_right (a b : String) {c : Char} (h : c ∈ b.data) :
    c ∈ (a ++ b).data := by
  rw [String.data_append]
  exact List.mem_append_right _ h

theorem sign_half_chars (value : Mag) :
    ' ' ∉ (signStr value ++ "1/2").data ∧ '√' ∉ (signStr value ++ "1/2").data ∧
      '/' ∈ (signStr value ++ "1/2").data := by
  unfold signStr
  split
  · exact ⟨by decide, by decide, by decide⟩
  · exact ⟨by decide, by decide, by decide⟩

theorem estimate_with_total_nonempty (input : KalkValue)
    (cnt : ComplexNumberType) (vs fs : String) :
    estimate_with input cnt vs fs = none ∨
      ∃ s, estimate_with input cnt vs fs = some s ∧ s ≠ "" := by
  unfold estimate_with
  dsimp only
  split
  · exact Or.inl rfl
  · split
    · exact Or.inr ⟨_, rfl, str_append_ne_empty_right _ _ (by decide)⟩
    · split
      · split
        · refine Or.inr ⟨_, rfl, str_append_ne_empty_right _ _ ?_⟩
          split
          · decide
          · split
            · decide
            · decide
        · refine Or.inr ⟨_, rfl, str_append_ne_empty_right _ _ ?_⟩
          split
          · decide
          · split
            · decide
            · decide
      · split
        · rename_i constant hlook
          refine Or.inr ⟨_, rfl, str_append_ne_empty_right _ _ ?_⟩
          split at hlook
          · exact (constants_values_good constant
              (lookupStr_mem_values _ _ _ hlook)).2
          · cases hlook
        · split
          · exact Or.inr ⟨_, rfl, str_append_ne_empty_left _ _ (by decide)⟩
          · split
            · exact Or.inl rfl
            · refine Or.inr ⟨_, rfl, ?_⟩
              split
              · decide
              · rw [trim_zeroes_magToString]
                exact magToString_ne_empty _ _

theorem estimate_with_ne_half (input : KalkValue) (cnt : ComplexNumberType)
    (vs fs : String) (hcf : halfCond (stripMinus vs) = false) :
    estimate_with input cnt vs fs ≠
      some (signStr (input.component cnt) ++ "1/2") := by
  unfold estimate_with
  dsimp only
  split
  · intro heq
    cases heq
  · rw [hcf]
    simp only [Bool.false_eq_true, if_false]
    split
    · split
      · intro heq
        have hfr := str_append_left_cancel (Option.some.inj heq)
        split at hfr
        · exact absurd hfr (by decide)
        · split at hfr
          · exact absurd hfr (by decide)
          · exact absurd hfr (by decide)
      · intro heq
        have hstr := Option.some.inj heq
        have hsp : ' ' ∈ (signStr (input.component cnt) ++ "1/2").data := by
          rw [← hstr]
          exact mem_append_str_left _ _
            (mem_append_str_right _ " " (by decide))
        exact (sign_half_chars _).1 hsp
    · split
      · rename_i constant hlook
        intro heq
        have hfr := str_append_left_cancel (Option.some.inj heq)
        split at hlook
        · exact (constants_values_good constant
            (lookupStr_mem_values _ _ _ hlook)).1 hfr
        · cases hlook
      · split
        · intro heq
          have hstr := Option.some.inj heq
          have hsq : '√' ∈ (signStr (input.component cnt) ++ "1/2").data := by
            rw [← hstr]
            exact mem_append_str_left _ _ (by decide)
          exact (sign_half_chars _).2.1 hsq
        · split
          · intro heq
            cases heq
          · intro heq
            have hstr := Option.some.inj heq
            have hsl : '/' ∈ (signStr (input.component cnt) ++ "1/2").data :=
              (sign_half_chars _).2.2
            rw [← hstr] at hsl
            revert hsl
            split
            · decide
            · intro hsl
              rw [trim_zeroes_magToString] at hsl
              exact ((magToString_chars _ _ _ hsl).1 rfl)

/-! ## Claim theorems -/

/-- C1 (code bug): `parse` hands the parsed statement sequence to the
interpreter, but calls `.unwrap()` on the interpreter's result: when the
interpreter fails the process aborts (modelled as `panic`) instead of the
failure being returned to the caller as an `EvaluationFailure` error; when
the interpreter succeeds the value is wrapped in `Ok` and returned. Shown at
the token stream of `"1"` with a failing and with a succeeding interpreter. -/
theorem parse_unwraps_interpreter_failure :
    parse failing_interpret ⟨[], 0, []⟩ toks_lit_1 32 = PRes.panic ∧
    parse succeeding_interpret ⟨[], 0, []⟩ toks_lit_1 32 =
      PRes.ok (Mag.ofInt 7) ⟨toks_lit_1, 1, []⟩ :=
  ⟨rfl, rfl⟩

/-- C2 counterexample: parsing the statement `f(3)=x`, whose single call
argument is a literal rather than a bare variable, succeeds with
`FnDecl "f" [] (Var "x")` — the non-variable argument is silently discarded;
no "invalid parameter list" error is raised. -/
theorem nonvar_param_fn_decl_succeeds :
    parse_stmt 32 ⟨toks_fn_lit_param, 0, []⟩ =
      PRes.ok (Stmt.FnDecl "f" [] (Expr.Var "x"))
        ⟨toks_fn_lit_param, 6, [("f()", Stmt.FnDecl "f" [] (Expr.Var "x"))]⟩ :=
  rfl

/-- C2 amended: for a statement of the shape `name(args)=expr` with
non-variable call arguments, parsing succeeds and the parameter list keeps
exactly the bare-variable arguments in order, silently discarding the rest
(shown at `g(x,3,y)=x`, and by the characterization of the extraction
loop). -/
theorem fn_decl_discards_nonvar_params :
    parse_stmt 32 ⟨toks_fn_mixed_params, 0, []⟩ =
      PRes.ok (Stmt.FnDecl "g" ["x", "y"] (Expr.Var "x"))
        ⟨toks_fn_mixed_params, 10,
          [("g()", Stmt.FnDecl "g" ["x", "y"] (Expr.Var "x"))]⟩ ∧
    ∀ args : List Expr, extract_params args =
      args.filterMap (fun e =>
        match e with
        | Expr.Var v => some v
        | _ => none) := by
  refine ⟨rfl, ?_⟩
  intro args
  induction args with
  | nil => rfl
  | cons a rest ih =>
    cases a <;> simp [extract_params, List.filterMap_cons, ih]

/-- C3 counterexample: `estimate` on the real component of `1.3333333`
yields `"1 + 1/3"`, not `"1/3"` (the integer part is nonzero, so the trimmed
integer and an explicit sign are prepended). -/
theorem estimate_one_third_counterexample :
    estimate (KalkValue.Number ⟨13333333, 10000000⟩ (Mag.ofInt 0) "")
        ComplexNumberType.Real = some "1 + 1/3" ∧
      ("1 + 1/3" : String) ≠ "1/3" :=
  ⟨rfl, by decide⟩

/-- C3 amended: when the first five digits after the decimal point of the
fractional part are `"33333"` or `"66666"`, the fraction is `1/3` or `2/3`,
emitted alone with sign when the integer part is zero, and otherwise as the
trimmed integer joined by an explicit `"+"` (positive) or `"-"` (negative)
to the unsigned fraction: `estimate` on `1.3333333` yields `"1 + 1/3"`, on
`2.6666666` yields `"2 + 2/3"`, on `-1.3333333` yields `"-1 - 1/3"`, on
`0.3333333` yields `"1/3"`, and on `-0.6666666` yields `"-2/3"`. -/
theorem estimate_repeating_third_examples :
    estimate (KalkValue.Number ⟨13333333, 10000000⟩ (Mag.ofInt 0) "")
        ComplexNumberType.Real = some "1 + 1/3" ∧
    estimate (KalkValue.Number ⟨26666666, 10000000⟩ (Mag.ofInt 0) "")
        ComplexNumberType.Real = some "2 + 2/3" ∧
    estimate (KalkValue.Number ⟨-13333333, 10000000⟩ (Mag.ofInt 0) "")
        ComplexNumberType.Real = some "-1 - 1/3" ∧
    estimate (KalkValue.Number ⟨3333333, 10000000⟩ (Mag.ofInt 0) "")
        ComplexNumberType.Real = some "1/3" ∧
    estimate (KalkValue.Number ⟨-6666666, 10000000⟩ (Mag.ofInt 0) "")
        ComplexNumberType.Real = some "-2/3" :=
  ⟨rfl, rfl, rfl, rfl, rfl⟩

/-- C4: `round` on a component whose integer part is zero uses
floor-threshold `-8` and ceil-threshold `-5` (it fires exactly when the
fractional part is below `10^-8` or within `10^-5` of the next integer), and
otherwise uses floor-threshold `-4` and ceil-threshold `-6`; consequently
`round` on `0.999999999` and on `1.00000001` returns the integer value `1`,
and `round` on `0.3` returns nothing. -/
theorem round_thresholds :
    (∀ (re im : Mag) (u : String) (cnt : ComplexNumberType),
      ((round (KalkValue.Number re im u) cnt).isSome = true ↔
        (let value := (KalkValue.Number re im u).component cnt
         if value.abs.trunc.isZero = true then
           Mag.lt value.abs.fract (pow10inv 8) = true ∨
             Mag.lt (Mag.one.sub value.abs.fract) (pow10inv 5) = true
         else
           Mag.lt value.abs.fract (pow10inv 4) = true ∨
             Mag.lt (Mag.one.sub value.abs.fract) (pow10inv 6) = true))) ∧
    round (KalkValue.Number ⟨999999999, 1000000000⟩ (Mag.ofInt 0) "")
        ComplexNumberType.Real =
      some (KalkValue.Number (Mag.ofInt 1) (Mag.ofInt 0) "") ∧
    round (KalkValue.Number ⟨100000001, 100000000⟩ (Mag.ofInt 0) "")
        ComplexNumberType.Real =
      some (KalkValue.Number (Mag.ofInt 1) (Mag.ofInt 0) "") ∧
    round (KalkValue.Number ⟨3, 10⟩ (Mag.ofInt 0) "") ComplexNumberType.Real =
      none := by
  refine ⟨?_, rfl, rfl, rfl⟩
  intro re im u cnt
  cases cnt <;>
    (unfold round KalkValue.component KalkValue.re KalkValue.im
     dsimp only
     split <;>
       (rename_i hz
        simp only [hz, log10_lt_neg]
        split
        · rename_i h1
          simp [h1]
        · split
          · rename_i h2
            simp [h2]
          · rename_i h1 h2
            simp [h1, h2]))

/-- C5: `estimate` emits the signed string `"1/2"` exactly when the
sign-stripped rendering of the selected component starts with `"0.5"` and
either has length exactly 3 or has length greater than 6 with the two
characters at offsets 3 and 4 equal to `"00"` (so renderings of length 4 to
6 beginning with `"0.5"` do not fire this branch); in particular a value
rendering to `0.5` yields `"1/2"` and `-0.5` yields `"-1/2"`. -/
theorem estimate_half_pattern :
    (∀ (input : KalkValue) (cnt : ComplexNumberType) (vs fs : String),
      (input.component cnt).fract.abs.isZero = false →
        (estimate_with input cnt vs fs =
            some (signStr (input.component cnt) ++ "1/2") ↔
          halfCond (stripMinus vs) = true)) ∧
    estimate (KalkValue.Number ⟨1, 2⟩ (Mag.ofInt 0) "") ComplexNumberType.Real =
      some "1/2" ∧
    estimate (KalkValue.Number ⟨-1, 2⟩ (Mag.ofInt 0) "") ComplexNumberType.Real =
      some "-1/2" := by
  refine ⟨?_, rfl, rfl⟩
  intro input cnt vs fs hfr
  constructor
  · intro heq
    cases hhc : halfCond (stripMinus vs)
    · exact absurd heq (estimate_with_ne_half input cnt vs fs hhc)
    · rfl
  · intro hhc
    unfold estimate_with
    dsimp only
    rw [hfr]
    simp only [Bool.false_eq_true, if_false]
    rw [hhc]
    simp

/-- Witness for C5 at the concrete input `1/2` with rendering `"0.5"`: the
hypothesis (nonzero fractional part) holds and the half branch fires. -/
theorem estimate_half_pattern_witness :
    estimate_with (KalkValue.Number ⟨1, 2⟩ (Mag.ofInt 0) "")
      ComplexNumberType.Real "0.5" "0.5" = some "1/2" :=
  (estimate_half_pattern.1 (KalkValue.Number ⟨1, 2⟩ (Mag.ofInt 0) "")
    ComplexNumberType.Real "0.5" "0.5" (by decide)).mpr (by decide)

/-- C6: for every parse of one statement, the symbol table is mutated if and
only if the statement is successfully parsed as a function declaration, in
which case exactly one entry keyed `name()` mapping to that declaration is
inserted before the parser returns; a variable declaration, an expression
statement, or a failed parse leaves the symbol table unchanged. -/
theorem parse_stmt_symbol_table_frame (fuel : Nat) (c : ParserContext) :
    stmt_table_effect c.symbol_table (parse_stmt fuel c) :=
  ((parsers_preserve fuel).2.2.2.2.2.2.2.2.2.2.2.2).1 c

/-- C7: when `round` returns a new value it changes only the selected
component and leaves the other component and the unit tag exactly as they
were in the input, in both the floor and the ceiling branch. -/
theorem round_preserves_other_component (v : KalkValue)
    (cnt : ComplexNumberType) (w : KalkValue) (h : round v cnt = some w) :
    (match cnt with
     | ComplexNumberType.Real => w.im = v.im ∧ w.get_unit = v.get_unit
     | ComplexNumberType.Imaginary => w.re = v.re ∧ w.get_unit = v.get_unit) := by
  cases v with
  | Number re im u =>
    cases cnt <;>
      (unfold round at h
       dsimp only at h
       split at h <;>
         (split at h
          · cases h
            exact ⟨rfl, rfl⟩
          · split at h
            · cases h
              exact ⟨rfl, rfl⟩
            · cases h))

/-- Witness for C7 at the concrete input `1.00000001 + 7i` tagged `"m"` in
the real component: the imaginary part and unit survive the rounding. -/
theorem round_preserves_other_component_witness :
    (KalkValue.Number (Mag.ofInt 1) (Mag.ofInt 7) "m").im =
        (KalkValue.Number ⟨100000001, 100000000⟩ (Mag.ofInt 7) "m").im ∧
      (KalkValue.Number (Mag.ofInt 1) (Mag.ofInt 7) "m").get_unit =
        (KalkValue.Number ⟨100000001, 100000000⟩ (Mag.ofInt 7) "m").get_unit :=
  round_preserves_other_component
    (KalkValue.Number ⟨100000001, 100000000⟩ (Mag.ofInt 7) "m")
    ComplexNumberType.Real
    (KalkValue.Number (Mag.ofInt 1) (Mag.ofInt 7) "m") rfl

/-- C8: parsing the token stream of `"3y"` (with `y` a known variable in the
symbol table) produces a statement with the same AST shape as parsing the
token stream of `"3*y"`: the identifier in operator position is treated as
multiplication without being consumed as an operator, and both inputs yield
`Binary(Literal "3", Star, Var "y")`. -/
theorem implicit_multiplication_ast :
    parse_stmt 32 ⟨toks_3y, 0, table_with_y⟩ =
      PRes.ok (Stmt.Expr (Expr.Binary (Expr.Literal "3") TokenKind.Star
          (Expr.Var "y")))
        ⟨toks_3y, 2, table_with_y⟩ ∧
    parse_stmt 32 ⟨toks_3_star_y, 0, table_with_y⟩ =
      PRes.ok (Stmt.Expr (Expr.Binary (Expr.Literal "3") TokenKind.Star
          (Expr.Var "y")))
        ⟨toks_3_star_y, 3, table_with_y⟩ :=
  ⟨rfl, rfl⟩

/-- C9: `estimate` is total and never fails: for every numeric input value
and component selector it either returns `none` or returns some non-empty
string (a declined fallback `round` propagates as `none`). -/
theorem estimate_total_nonempty (v : KalkValue) (cnt : ComplexNumberType) :
    estimate v cnt = none ∨ ∃ s, estimate v cnt = some s ∧ s ≠ "" := by
  unfold estimate
  dsimp only
  exact estimate_with_total_nonempty v cnt _ _

/-- C10: for the syntactically incomplete token stream of `"3+"` (ending in
the end-of-input sentinel with any payload), parsing the statement succeeds
rather than reporting an `UnexpectedToken` error: the primary parser's
default branch consumes the end-of-input token itself as a `Literal`
operand, yielding `Binary(Literal "3", Plus, Literal of the EOF payload)`. -/
theorem trailing_operator_consumes_eof (eof_payload : String) :
    parse_stmt 32 ⟨toks_3_plus eof_payload, 0, []⟩ =
      PRes.ok (Stmt.Expr (Expr.Binary (Expr.Literal "3") TokenKind.Plus
          (Expr.Literal eof_payload)))
        ⟨toks_3_plus eof_payload, 3, []⟩ :=
  rfl

end KalkVerify
